import Mathlib

/-!
Shallow embedding of the server-side channel relay and ephemeral media store
of the modern-walkie-talkie repository.

The backend consists of two near-duplicate Socket.io server files:
* variant A — the multi-channel-membership backend (per-socket `userChannels`
  set, membership guards on `pttStatus`/`audioData`, delayed roster/notice
  after a join confirmation);
* variant B — the single-channel backend (global `activeChannels` map,
  double-send of PTT-off events, synthetic PTT-off before audio relay).

Handlers are embedded as pure functions from a server state and an inbound
message to the new state together with the ordered list of outbound
emissions.  An emission records the scheduling delay in milliseconds
(0 for synchronous `emit` calls, the `setTimeout` argument for delayed
ones), the list of recipient socket ids, and the event payload.  Socket.io
rooms are modelled as an association list from channel id to the member
socket-id list; a room is dropped when it becomes empty, mirroring the
socket.io adapter.  Wall-clock `timestamp` fields attached to some outbound
payloads are elided; they carry no protocol content.
-/

namespace WalkieTalkie

/-- Outbound event payloads emitted by the backend handlers. -/
inductive Event where
  | joinConfirmation (channelId : String) (success : Bool) (error : Option String)
  | activeUsers (users : List String)
  | userJoined (userId : String)
  | userLeft (userId : String)
  | pttStatus (userId : String) (status : Bool) (message : Option String)
  | audioData (userId : String) (uri : Option String)
  | pttAck (channelId : String) (status : Bool) (received : Bool)
  | audioAck (success : Bool)
  | pong
  deriving DecidableEq, Repr

/-- One outbound emission: scheduling delay in ms (the `setTimeout` argument,
0 for synchronous emits), the recipient socket ids, and the event. -/
structure Emit where
  delay : Nat
  recipients : List String
  event : Event
  deriving DecidableEq, Repr

/-- Emission `e1` is observed before `e2` when it is scheduled strictly
earlier. -/
def observedBefore (e1 e2 : Emit) : Prop := e1.delay < e2.delay

/-! ### Association-list primitives (JS `Map` / socket.io room table) -/

/-- Lookup in an association list from keys to string lists; a missing key
behaves as the empty set, as `rooms.get(ch)` yielding `undefined` does. -/
def getA : List (String × List String) → String → List String
  | [], _ => []
  | p :: rest, k => if p.1 = k then p.2 else getA rest k

/-- Update or insert a binding in an association list. -/
def setA : List (String × List String) → String → List String → List (String × List String)
  | [], k, v => [(k, v)]
  | p :: rest, k, v => if p.1 = k then (k, v) :: rest else p :: setA rest k v

/-- Delete every binding of a key from an association list. -/
def delA : List (String × List String) → String → List (String × List String)
  | [], _ => []
  | p :: rest, k => if p.1 = k then delA rest k else p :: delA rest k

/-- Whether an association list binds a key. -/
def hasKeyA : List (String × List String) → String → Bool
  | [], _ => false
  | p :: rest, k => if p.1 = k then true else hasKeyA rest k

/-- JS `Set.add`: append the element if absent (JS sets preserve insertion
order). -/
def insertNew (xs : List String) (x : String) : List String :=
  if x ∈ xs then xs else xs ++ [x]

/-- JS `Set.delete`: remove the element. -/
def removeMem (xs : List String) (x : String) : List String :=
  xs.filter (fun y => !decide (y = x))

/-! ### Variant A: multi-channel backend state -/

/-- State of the multi-channel backend: the socket.io adapter room table and
the per-socket `userChannels` joined sets. -/
structure ServerA where
  rooms : List (String × List String)
  chans : List (String × List String)
  deriving DecidableEq, Repr

/-- `io.sockets.adapter.rooms.get(ch)` as a list of member socket ids. -/
def roomMembers (st : ServerA) (ch : String) : List String := getA st.rooms ch

/-- The `userChannels` set of one socket. -/
def userChans (st : ServerA) (sid : String) : List String := getA st.chans sid

/-- `socket.join(ch)`: add the socket to the room (idempotent set add). -/
def socketJoin (st : ServerA) (sid ch : String) : ServerA :=
  { st with rooms := setA st.rooms ch (insertNew (getA st.rooms ch) sid) }

/-- `socket.leave(ch)`: remove the socket from the room; the adapter drops a
room whose member set becomes empty. -/
def socketLeave (st : ServerA) (sid ch : String) : ServerA :=
  let v := removeMem (getA st.rooms ch) sid
  { st with rooms := if v = [] then delA st.rooms ch else setA st.rooms ch v }

/-- `userChannels.add(ch)` for one socket. -/
def addChan (st : ServerA) (sid ch : String) : ServerA :=
  { st with chans := setA st.chans sid (insertNew (getA st.chans sid) ch) }

/-- `userChannels.delete(ch)` for one socket. -/
def delChan (st : ServerA) (sid ch : String) : ServerA :=
  { st with chans := setA st.chans sid (removeMem (getA st.chans sid) ch) }

/-- Variant A `joinChannel` handler.  Non-string channel ids are outside the
model; the falsy-string guard is the empty string.  The `try` around
`socket.join` cannot throw in this model, so the catch branch is elided. -/
def joinChannelA (st : ServerA) (sid channelId : String) : ServerA × List Emit :=
  if channelId = "" then
    (st, [⟨0, [sid], .joinConfirmation "unknown" false (some "Invalid channel ID")⟩])
  else if channelId ∈ userChans st sid then
    (st, [⟨0, [sid], .joinConfirmation channelId true none⟩,
          ⟨0, [sid], .activeUsers (roomMembers st channelId)⟩])
  else
    let st1 := addChan (socketJoin st sid channelId) sid channelId
    let users := roomMembers st1 channelId
    (st1, [⟨0, [sid], .joinConfirmation channelId true none⟩,
           ⟨100, [sid], .activeUsers users⟩,
           ⟨100, removeMem users sid, .userJoined sid⟩])

/-- Variant A `leaveChannel` handler: leave the room, drop the channel from
`userChannels`, then `io.to(channelId).emit('userLeft', socket.id)` —
delivered to the members remaining after the leave, unconditionally. -/
def leaveChannelA (st : ServerA) (sid channelId : String) : ServerA × List Emit :=
  let st1 := delChan (socketLeave st sid channelId) sid channelId
  (st1, [⟨0, roomMembers st1 channelId, .userLeft sid⟩])

/-- Inbound `pttStatus` payload of variant A; `channelId` may be missing. -/
structure PttIn where
  channelId : Option String
  status : Bool
  deriving DecidableEq, Repr

/-- Variant A `pttStatus` handler: guard on missing/falsy payload, then on
channel membership, then broadcast to the whole room (sender included). -/
def pttStatusA (st : ServerA) (sid : String) (payload : Option PttIn) :
    ServerA × List Emit :=
  match payload with
  | none => (st, [])
  | some d =>
    match d.channelId with
    | none => (st, [])
    | some ch =>
      if ch = "" then (st, [])
      else if ch ∈ userChans st sid then
        (st, [⟨0, roomMembers st ch, .pttStatus sid d.status none⟩])
      else (st, [])

/-- Inbound `audioData` payload of variant A; both the channel id and the
audio URI may be missing. -/
structure AudioInA where
  channelId : Option String
  uri : Option String
  deriving DecidableEq, Repr

/-- The relative-path-to-full-URL rewrite of variant A's `audioData` handler;
the protocol/host headers are condensed into the `host` parameter. -/
def rewriteUri (host u : String) : String :=
  if u.startsWith "/uploads/" then host ++ u else u

/-- Variant A `audioData` handler: guard on missing/falsy payload, then on
channel membership, then relay to the other room members
(`socket.to(channelId)`, sender excluded). -/
def audioDataA (st : ServerA) (host sid : String) (payload : Option AudioInA) :
    ServerA × List Emit :=
  match payload with
  | none => (st, [])
  | some d =>
    match d.channelId with
    | none => (st, [])
    | some ch =>
      if ch = "" then (st, [])
      else if ch ∈ userChans st sid then
        (st, [⟨0, removeMem (roomMembers st ch) sid,
               .audioData sid (d.uri.map (rewriteUri host))⟩])
      else (st, [])

/-- Remove a socket from every room, dropping rooms that become empty — the
socket.io adapter cleanup that precedes the `disconnect` event. -/
def removeAll (rooms : List (String × List String)) (sid : String) :
    List (String × List String) :=
  (rooms.map (fun p => (p.1, removeMem p.2 sid))).filter (fun p => !p.2.isEmpty)

/-- Variant A `disconnect` handler: the adapter has already removed the
socket from every room; the handler sends one `userLeft` per channel in the
socket's `userChannels` set, then clears that set. -/
def disconnectA (st : ServerA) (sid : String) : ServerA × List Emit :=
  let rooms1 := removeAll st.rooms sid
  (⟨rooms1, delA st.chans sid⟩,
   (userChans st sid).map (fun ch => ⟨0, getA rooms1 ch, .userLeft sid⟩))

/-- Repeated `joinChannel` requests from the same socket for the same
channel, collecting all emissions in order. -/
def joinSeq : Nat → ServerA → String → String → ServerA × List Emit
  | 0, st, _, _ => (st, [])
  | n + 1, st, sid, ch =>
    let r1 := joinChannelA st sid ch
    let r2 := joinSeq n r1.1 sid ch
    (r2.1, r1.2 ++ r2.2)

/-! ### Variant B: single-channel backend handlers -/

/-- State of the single-channel backend: the adapter room table and the
global `activeChannels` map from channel id to member socket ids. -/
structure ServerB where
  rooms : List (String × List String)
  activeChannels : List (String × List String)
  deriving DecidableEq, Repr

/-- Room membership in variant B. -/
def roomMembersB (st : ServerB) (ch : String) : List String := getA st.rooms ch

/-- Variant B `pttStatus` handler: a PTT-off event is broadcast to the room
immediately and again after a 200 ms delay, followed by a synchronous
`pttAck` to the sender; a PTT-on event is broadcast once.  There is no
membership guard in this variant.  The extra `timestamp` field of the
delayed resend is elided. -/
def pttStatusB (st : ServerB) (sid ch : String) (status : Bool)
    (message : Option String) : ServerB × List Emit :=
  if status = false then
    (st, [⟨0, roomMembersB st ch, .pttStatus sid false message⟩,
          ⟨200, roomMembersB st ch, .pttStatus sid false message⟩,
          ⟨0, [sid], .pttAck ch false true⟩])
  else
    (st, [⟨0, roomMembersB st ch, .pttStatus sid status message⟩])

/-- Inbound `audioData` body of variant B (`data.uri` may be missing). -/
structure AudioBody where
  uri : Option String
  deriving DecidableEq, Repr

/-- Variant B `audioData` handler: on a valid URI, broadcast a synthetic
PTT-off event to the room immediately, then after a 200 ms delay broadcast
the audio reference to the room and acknowledge the sender; on a
missing/falsy URI, only a failure acknowledgement is sent. -/
def audioDataB (st : ServerB) (sid ch : String) (data : Option AudioBody) :
    ServerB × List Emit :=
  match data with
  | none => (st, [⟨0, [sid], .audioAck false⟩])
  | some d =>
    match d.uri with
    | none => (st, [⟨0, [sid], .audioAck false⟩])
    | some u =>
      if u = "" then (st, [⟨0, [sid], .audioAck false⟩])
      else
        (st, [⟨0, roomMembersB st ch, .pttStatus sid false none⟩,
              ⟨200, roomMembersB st ch, .audioData sid (some u)⟩,
              ⟨200, [sid], .audioAck true⟩])

/-! ### Media store: upload tracking and the TTL eviction sweep -/

/-- `FILE_MAX_AGE_MS = 4 * 60 * 1000` — the object TTL. -/
def FILE_MAX_AGE_MS : Nat := 4 * 60 * 1000

/-- `CLEANUP_INTERVAL_MS = 60 * 1000` — the sweep interval. -/
def CLEANUP_INTERVAL_MS : Nat := 60 * 1000

/-- Media-store state: the `uploadedFiles` tracking map (filename to recorded
creation timestamp) and the backing uploads directory (filename to mtime). -/
structure MediaState where
  tracked : List (String × Nat)
  storage : List (String × Nat)
  deriving DecidableEq, Repr

/-- Whether a filename-keyed list binds a name. -/
def hasKeyN : List (String × Nat) → String → Bool
  | [], _ => false
  | p :: rest, k => if p.1 = k then true else hasKeyN rest k

/-- The age test `now - timestamp > FILE_MAX_AGE_MS`.  Over `Nat` this is
stated as `timestamp + FILE_MAX_AGE_MS < now`, which agrees with the JS
comparison also when the timestamp lies in the future (negative age is never
greater than the max age). -/
def isExpired (now ts : Nat) : Bool := decide (ts + FILE_MAX_AGE_MS < now)

/-- Phase 1 of `cleanupOldFiles`: every tracked entry past the TTL is
removed from tracking and its file is unlinked from the directory. -/
def cleanupTracked (now : Nat) (st : MediaState) : MediaState :=
  let expired := st.tracked.filter (fun p => isExpired now p.2)
  { tracked := st.tracked.filter (fun p => !isExpired now p.2),
    storage := st.storage.filter (fun f => !hasKeyN expired f.1) }

/-- Phase 2 of `cleanupOldFiles`: scan the directory; an untracked file past
the TTL (by mtime) is unlinked, an untracked fresh file is adopted into
tracking with its mtime.  Directory listings have unique names, so the
mid-loop `uploadedFiles.has` checks reduce to a check against the tracking
map entering the scan. -/
def cleanupScan (now : Nat) (st : MediaState) : MediaState :=
  { tracked := st.tracked ++ st.storage.filter
      (fun f => !hasKeyN st.tracked f.1 && !isExpired now f.2),
    storage := st.storage.filter
      (fun f => hasKeyN st.tracked f.1 || !isExpired now f.2) }

/-- The `cleanupOldFiles` sweep: tracked-entry cleanup, then the defensive
directory scan. -/
def cleanupOldFiles (now : Nat) (st : MediaState) : MediaState :=
  cleanupScan now (cleanupTracked now st)

/-- An object is retrievable while its file is present in the uploads
directory. -/
def retrievable (st : MediaState) (fname : String) : Bool :=
  hasKeyN st.storage fname

/-- The sweep schedule: `setInterval(cleanupOldFiles, CLEANUP_INTERVAL_MS)`
together with the startup sweep fires at `t0 + k * interval`; these are the
firings due by time `t`. -/
def sweepTimes (t0 interval t : Nat) : List Nat :=
  (List.range ((t - t0) / interval + 1)).map (fun k => t0 + k * interval)

/-- Run the eviction sweep at each of the given times in order. -/
def runSweeps (times : List Nat) (st : MediaState) : MediaState :=
  times.foldl (fun a n => cleanupOldFiles n a) st

/-! ### Basic lemmas about the association-list and set primitives -/

theorem getA_setA_self (m : List (String × List String)) (k : String) (v : List String) :
    getA (setA m k v) k = v := by
  induction m with
  | nil => simp [getA, setA]
  | cons p rest ih =>
    by_cases h : p.1 = k
    · simp [setA, h, getA]
    · simp [setA, h, getA, ih]

theorem getA_setA_ne (m : List (String × List String)) (k k' : String) (v : List String)
    (h : k' ≠ k) : getA (setA m k v) k' = getA m k' := by
  have hk : k ≠ k' := Ne.symm h
  induction m with
  | nil => simp [getA, setA, hk]
  | cons p rest ih =>
    by_cases hp : p.1 = k
    · simp [setA, hp, getA, hk]
    · by_cases hp' : p.1 = k'
      · simp [setA, hp, getA, hp', h]
      · simp [setA, hp, getA, hp', ih]

theorem getA_delA_self (m : List (String × List String)) (k : String) :
    getA (delA m k) k = [] := by
  induction m with
  | nil => simp [getA, delA]
  | cons p rest ih =>
    by_cases h : p.1 = k
    · simp [delA, h, ih]
    · simp [delA, h, getA, ih]

theorem getA_delA_ne (m : List (String × List String)) (k k' : String) (h : k' ≠ k) :
    getA (delA m k) k' = getA m k' := by
  induction m with
  | nil => simp [delA]
  | cons p rest ih =>
    by_cases hp : p.1 = k
    · have hk : k ≠ k' := Ne.symm h
      have : p.1 ≠ k' := by rw [hp]; exact hk
      simp [delA, hp, getA, this, hk, ih]
    · simp [delA, hp, getA, ih]

theorem hasKeyA_delA_self (m : List (String × List String)) (k : String) :
    hasKeyA (delA m k) k = false := by
  induction m with
  | nil => simp [hasKeyA, delA]
  | cons p rest ih =>
    by_cases h : p.1 = k
    · simp [delA, h, ih]
    · simp [delA, h, hasKeyA, ih]

theorem mem_insertNew_self (xs : List String) (x : String) : x ∈ insertNew xs x := by
  unfold insertNew
  by_cases h : x ∈ xs <;> simp [h]

theorem insertNew_of_mem {xs : List String} {x : String} (h : x ∈ xs) :
    insertNew xs x = xs := by
  simp [insertNew, h]

theorem count_insertNew_of_not_mem {xs : List String} {x : String} (h : x ∉ xs) :
    (insertNew xs x).count x = 1 := by
  simp [insertNew, h, List.count_append, List.count_eq_zero_of_not_mem h]

theorem mem_removeMem {xs : List String} {x y : String} :
    y ∈ removeMem xs x ↔ y ∈ xs ∧ y ≠ x := by
  simp [removeMem, List.mem_filter]

theorem not_mem_removeMem_self (xs : List String) (x : String) :
    x ∉ removeMem xs x := by
  intro h
  exact (mem_removeMem.mp h).2 rfl

theorem removeMem_of_not_mem {xs : List String} {x : String} (h : x ∉ xs) :
    removeMem xs x = xs := by
  refine List.filter_eq_self.mpr ?_
  intro y hy
  simp only [Bool.not_eq_true', decide_eq_false_iff_not]
  exact fun hxy => h (hxy ▸ hy)

/-! ### State shape after a fresh join (variant A) -/

theorem joinChannelA_fresh (st : ServerA) (sid ch : String)
    (hch : ch ≠ "") (hns : ch ∉ userChans st sid) :
    joinChannelA st sid ch =
      (addChan (socketJoin st sid ch) sid ch,
       [⟨0, [sid], .joinConfirmation ch true none⟩,
        ⟨100, [sid], .activeUsers (roomMembers (addChan (socketJoin st sid ch) sid ch) ch)⟩,
        ⟨100, removeMem (roomMembers (addChan (socketJoin st sid ch) sid ch) ch) sid,
         .userJoined sid⟩]) := by
  simp [joinChannelA, hch, hns]

theorem roomMembers_after_join (st : ServerA) (sid ch : String) :
    roomMembers (addChan (socketJoin st sid ch) sid ch) ch
      = insertNew (roomMembers st ch) sid := by
  simp [addChan, socketJoin, roomMembers, getA_setA_self]

theorem userChans_after_join (st : ServerA) (sid ch : String) :
    userChans (addChan (socketJoin st sid ch) sid ch) sid
      = insertNew (userChans st sid) ch := by
  simp [addChan, socketJoin, userChans, getA_setA_self]

/-- Claim C1: a successful fresh join emits, in order, a success
`joinConfirmation` addressed only to the joining connection (delay 0), then
after the fixed 100 ms delay the `activeUsers` roster to the joiner together
with a `userJoined` notice to the other members (never to the joiner), and
the confirmation is observed before both delayed emissions. -/
theorem join_confirmation_before_roster (st : ServerA) (sid ch : String)
    (hch : ch ≠ "") (hns : ch ∉ userChans st sid) :
    (joinChannelA st sid ch).2 =
      [⟨0, [sid], .joinConfirmation ch true none⟩,
       ⟨100, [sid], .activeUsers (roomMembers (joinChannelA st sid ch).1 ch)⟩,
       ⟨100, removeMem (roomMembers (joinChannelA st sid ch).1 ch) sid,
        .userJoined sid⟩] ∧
    sid ∈ roomMembers (joinChannelA st sid ch).1 ch ∧
    sid ∉ removeMem (roomMembers (joinChannelA st sid ch).1 ch) sid ∧
    (∀ e ∈ ((joinChannelA st sid ch).2).tail,
      observedBefore ⟨0, [sid], .joinConfirmation ch true none⟩ e) := by
  rw [joinChannelA_fresh st sid ch hch hns]
  refine ⟨rfl, ?_, ?_, ?_⟩
  · rw [roomMembers_after_join]
    exact mem_insertNew_self _ _
  · exact not_mem_removeMem_self _ _
  · intro e he
    simp only [List.tail_cons, List.mem_cons, List.mem_singleton] at he
    rcases he with rfl | rfl | h
    · simp [observedBefore]
    · simp [observedBefore]
    · cases h

/-- A state with one member `A` of channel `freq-446.00`, used to witness the
join theorems for a second connection `B`. -/
def wStA : ServerA := ⟨[("freq-446.00", ["A"])], [("A", ["freq-446.00"])]⟩

theorem join_confirmation_before_roster_witness :
    ("freq-446.00" : String) ≠ "" ∧ "freq-446.00" ∉ userChans wStA "B" ∧
    ((joinChannelA wStA "B" "freq-446.00").2 =
      [⟨0, ["B"], .joinConfirmation "freq-446.00" true none⟩,
       ⟨100, ["B"], .activeUsers (roomMembers (joinChannelA wStA "B" "freq-446.00").1 "freq-446.00")⟩,
       ⟨100, removeMem (roomMembers (joinChannelA wStA "B" "freq-446.00").1 "freq-446.00") "B",
        .userJoined "B"⟩] ∧
     "B" ∈ roomMembers (joinChannelA wStA "B" "freq-446.00").1 "freq-446.00" ∧
     "B" ∉ removeMem (roomMembers (joinChannelA wStA "B" "freq-446.00").1 "freq-446.00") "B" ∧
     (∀ e ∈ ((joinChannelA wStA "B" "freq-446.00").2).tail,
       observedBefore ⟨0, ["B"], .joinConfirmation "freq-446.00" true none⟩ e)) :=
  ⟨by decide, by decide,
   join_confirmation_before_roster wStA "B" "freq-446.00" (by decide) (by decide)⟩

/-- Claim C3: a `pttStatus` broadcast by a member of the channel leaves the
state unchanged and delivers exactly one event whose recipient list is
exactly the channel's member set — every member including the sender, and no
non-member. -/
theorem ptt_broadcast_members (st : ServerA) (sid ch : String) (b : Bool)
    (hch : ch ≠ "") (hm : ch ∈ userChans st sid) (hsender : sid ∈ roomMembers st ch) :
    pttStatusA st sid (some ⟨some ch, b⟩) =
      (st, [⟨0, roomMembers st ch, .pttStatus sid b none⟩]) ∧
    sid ∈ roomMembers st ch :=
  ⟨by simp [pttStatusA, hch, hm], hsender⟩

theorem ptt_broadcast_members_witness :
    ("c" : String) ≠ "" ∧ "c" ∈ userChans ⟨[("c", ["A", "B"])], [("A", ["c"])]⟩ "A" ∧
    "A" ∈ roomMembers ⟨[("c", ["A", "B"])], [("A", ["c"])]⟩ "c" ∧
    (pttStatusA ⟨[("c", ["A", "B"])], [("A", ["c"])]⟩ "A" (some ⟨some "c", true⟩) =
      (⟨[("c", ["A", "B"])], [("A", ["c"])]⟩,
       [⟨0, roomMembers ⟨[("c", ["A", "B"])], [("A", ["c"])]⟩ "c", .pttStatus "A" true none⟩]) ∧
     "A" ∈ roomMembers ⟨[("c", ["A", "B"])], [("A", ["c"])]⟩ "c") :=
  ⟨by decide, by decide, by decide,
   ptt_broadcast_members _ "A" "c" true (by decide) (by decide) (by decide)⟩

/-- Claim C4: a `pttStatus` or `audioData` message naming a channel the
sender has not joined is dropped — no emission to anyone and no state
change. -/
theorem nonmember_broadcast_rejected (st : ServerA) (host sid ch : String) (b : Bool)
    (u : Option String) (hns : ch ∉ userChans st sid) :
    pttStatusA st sid (some ⟨some ch, b⟩) = (st, []) ∧
    audioDataA st host sid (some ⟨some ch, u⟩) = (st, []) := by
  by_cases hch : ch = "" <;> simp [pttStatusA, audioDataA, hch, hns]

theorem nonmember_broadcast_rejected_witness :
    "c" ∉ userChans ⟨[("c", ["A", "B"])], [("A", [])]⟩ "A" ∧
    (pttStatusA ⟨[("c", ["A", "B"])], [("A", [])]⟩ "A" (some ⟨some "c", true⟩) =
      (⟨[("c", ["A", "B"])], [("A", [])]⟩, []) ∧
     audioDataA ⟨[("c", ["A", "B"])], [("A", [])]⟩ "h" "A"
        (some ⟨some "c", some "/uploads/x.m4a"⟩) =
      (⟨[("c", ["A", "B"])], [("A", [])]⟩, [])) :=
  ⟨by decide,
   nonmember_broadcast_rejected _ "h" "A" "c" true (some "/uploads/x.m4a") (by decide)⟩

/-- Claim C10: a `pttStatus` or `audioData` message with an absent payload
or a payload lacking the `channelId` field is ignored — no emission to any
client and no state change. -/
theorem invalid_payload_ignored (st : ServerA) (host sid : String) (b : Bool)
    (u : Option String) :
    pttStatusA st sid none = (st, []) ∧
    pttStatusA st sid (some ⟨none, b⟩) = (st, []) ∧
    audioDataA st host sid none = (st, []) ∧
    audioDataA st host sid (some ⟨none, u⟩) = (st, []) :=
  ⟨rfl, rfl, rfl, rfl⟩

/-- Whether an emission carries a `pttStatus` event. -/
def isPtt (e : Emit) : Bool :=
  match e.event with
  | .pttStatus _ _ _ => true
  | _ => false

/-- Claim C6: variant B's `pttStatus` handler emits a PTT-off event to the
channel exactly twice — once immediately and once after the fixed 200 ms
delay — and a PTT-on event exactly once. -/
theorem ptt_off_double_send (st : ServerB) (sid ch : String) (msg : Option String) :
    (pttStatusB st sid ch false msg).2.filter isPtt =
      [⟨0, roomMembersB st ch, .pttStatus sid false msg⟩,
       ⟨200, roomMembersB st ch, .pttStatus sid false msg⟩] ∧
    (pttStatusB st sid ch true msg).2.filter isPtt =
      [⟨0, roomMembersB st ch, .pttStatus sid true msg⟩] :=
  ⟨rfl, rfl⟩

/-- Claim C5: when variant B relays an uploaded audio reference, it first
broadcasts a synthetic PTT-off event for the uploader to the channel
(delay 0), then after the fixed 200 ms delay broadcasts the audio-reference
event to the same recipient set, so every receiver observes the PTT-off
event before the audio event. -/
theorem audio_relay_ptt_off_first (st : ServerB) (sid ch u : String) (hu : u ≠ "") :
    audioDataB st sid ch (some ⟨some u⟩) =
      (st, [⟨0, roomMembersB st ch, .pttStatus sid false none⟩,
            ⟨200, roomMembersB st ch, .audioData sid (some u)⟩,
            ⟨200, [sid], .audioAck true⟩]) ∧
    observedBefore ⟨0, roomMembersB st ch, .pttStatus sid false none⟩
      ⟨200, roomMembersB st ch, .audioData sid (some u)⟩ := by
  refine ⟨by simp [audioDataB, hu], ?_⟩
  simp [observedBefore]

theorem audio_relay_ptt_off_first_witness :
    ("/uploads/x.m4a" : String) ≠ "" ∧
    (audioDataB ⟨[("c", ["A", "B"])], []⟩ "A" "c" (some ⟨some "/uploads/x.m4a"⟩) =
      (⟨[("c", ["A", "B"])], []⟩,
       [⟨0, roomMembersB ⟨[("c", ["A", "B"])], []⟩ "c", .pttStatus "A" false none⟩,
        ⟨200, roomMembersB ⟨[("c", ["A", "B"])], []⟩ "c", .audioData "A" (some "/uploads/x.m4a")⟩,
        ⟨200, ["A"], .audioAck true⟩]) ∧
     observedBefore ⟨0, roomMembersB ⟨[("c", ["A", "B"])], []⟩ "c", .pttStatus "A" false none⟩
       ⟨200, roomMembersB ⟨[("c", ["A", "B"])], []⟩ "c", .audioData "A" (some "/uploads/x.m4a")⟩) :=
  ⟨by decide, audio_relay_ptt_off_first _ "A" "c" "/uploads/x.m4a" (by decide)⟩

/-! ### Join idempotence (variant A) -/

theorem join_member_resend (st : ServerA) (sid ch : String)
    (hch : ch ≠ "") (hm : ch ∈ userChans st sid) :
    joinChannelA st sid ch =
      (st, [⟨0, [sid], .joinConfirmation ch true none⟩,
            ⟨0, [sid], .activeUsers (roomMembers st ch)⟩]) := by
  simp [joinChannelA, hch, hm]

theorem joinSeq_member_state (n : Nat) (st : ServerA) (sid ch : String)
    (hch : ch ≠ "") (hm : ch ∈ userChans st sid) :
    (joinSeq n st sid ch).1 = st := by
  induction n with
  | zero => rfl
  | succ k ih =>
    show (joinSeq k (joinChannelA st sid ch).1 sid ch).1 = st
    rw [join_member_resend st sid ch hch hm]
    exact ih

theorem joinChannelA_sends_confirmation (st : ServerA) (sid ch : String)
    (hch : ch ≠ "") :
    ∃ e ∈ (joinChannelA st sid ch).2,
      e.recipients = [sid] ∧ e.event = .joinConfirmation ch true none := by
  by_cases hm : ch ∈ userChans st sid
  · rw [join_member_resend st sid ch hch hm]
    exact ⟨_, List.mem_cons_self _ _, rfl, rfl⟩
  · rw [joinChannelA_fresh st sid ch hch hm]
    exact ⟨_, List.mem_cons_self _ _, rfl, rfl⟩

/-- Claim C2: joins of the same (connection, channel) pair are idempotent.
After any positive number of join requests the connection is in the Member
state and appears exactly once in the channel's member set; every request
(so at least one) is answered with a success confirmation; and a join from a
connection that is already a member re-sends the confirmation and the
current roster without changing the state.  The hypotheses are the data
model's bidirectional-consistency invariant and set-ness of the member
list at the starting state. -/
theorem join_idempotent (st : ServerA) (sid ch : String) (n : Nat)
    (hch : ch ≠ "")
    (hcount : (roomMembers st ch).count sid ≤ 1)
    (hcons : sid ∈ roomMembers st ch ↔ ch ∈ userChans st sid) :
    ch ∈ userChans (joinSeq (n + 1) st sid ch).1 sid ∧
    (roomMembers (joinSeq (n + 1) st sid ch).1 ch).count sid = 1 ∧
    (∃ e ∈ (joinSeq (n + 1) st sid ch).2,
       e.recipients = [sid] ∧ e.event = .joinConfirmation ch true none) ∧
    (ch ∈ userChans st sid →
       joinChannelA st sid ch =
         (st, [⟨0, [sid], .joinConfirmation ch true none⟩,
               ⟨0, [sid], .activeUsers (roomMembers st ch)⟩])) := by
  have hseq : joinSeq (n + 1) st sid ch =
      ((joinSeq n (joinChannelA st sid ch).1 sid ch).1,
       (joinChannelA st sid ch).2 ++ (joinSeq n (joinChannelA st sid ch).1 sid ch).2) := rfl
  have hconf := joinChannelA_sends_confirmation st sid ch hch
  by_cases hm : ch ∈ userChans st sid
  · have hstate : (joinSeq (n + 1) st sid ch).1 = st := by
      rw [hseq]
      show (joinSeq n (joinChannelA st sid ch).1 sid ch).1 = st
      rw [join_member_resend st sid ch hch hm]
      exact joinSeq_member_state n st sid ch hch hm
    have hmem : sid ∈ roomMembers st ch := hcons.mpr hm
    refine ⟨by rw [hstate]; exact hm, ?_, ?_, fun _ => join_member_resend st sid ch hch hm⟩
    · rw [hstate]
      exact Nat.le_antisymm hcount (List.count_pos_iff.mpr hmem)
    · obtain ⟨e, he, hr, hv⟩ := hconf
      exact ⟨e, by rw [hseq]; exact List.mem_append_left _ he, hr, hv⟩
  · have hnotmem : sid ∉ roomMembers st ch := fun h => hm (hcons.mp h)
    have hm1 : ch ∈ userChans (joinChannelA st sid ch).1 sid := by
      rw [joinChannelA_fresh st sid ch hch hm, userChans_after_join]
      exact mem_insertNew_self _ _
    have hroom1 : roomMembers (joinChannelA st sid ch).1 ch
        = insertNew (roomMembers st ch) sid := by
      rw [joinChannelA_fresh st sid ch hch hm, roomMembers_after_join]
    have hstate : (joinSeq (n + 1) st sid ch).1 = (joinChannelA st sid ch).1 := by
      rw [hseq]
      exact joinSeq_member_state n _ sid ch hch hm1
    refine ⟨by rw [hstate]; exact hm1, ?_, ?_, fun h => absurd h hm⟩
    · rw [hstate, hroom1]
      exact count_insertNew_of_not_mem hnotmem
    · obtain ⟨e, he, hr, hv⟩ := hconf
      exact ⟨e, by rw [hseq]; exact List.mem_append_left _ he, hr, hv⟩

theorem join_idempotent_witness :
    ("freq-446.00" : String) ≠ "" ∧
    (roomMembers wStA "freq-446.00").count "A" ≤ 1 ∧
    ("A" ∈ roomMembers wStA "freq-446.00" ↔ "freq-446.00" ∈ userChans wStA "A") ∧
    ("freq-446.00" ∈ userChans (joinSeq 3 wStA "A" "freq-446.00").1 "A" ∧
     (roomMembers (joinSeq 3 wStA "A" "freq-446.00").1 "freq-446.00").count "A" = 1 ∧
     (∃ e ∈ (joinSeq 3 wStA "A" "freq-446.00").2,
        e.recipients = ["A"] ∧ e.event = .joinConfirmation "freq-446.00" true none) ∧
     ("freq-446.00" ∈ userChans wStA "A" →
        joinChannelA wStA "A" "freq-446.00" =
          (wStA, [⟨0, ["A"], .joinConfirmation "freq-446.00" true none⟩,
                  ⟨0, ["A"], .activeUsers (roomMembers wStA "freq-446.00")⟩]))) :=
  ⟨by decide, by decide, by decide,
   join_idempotent wStA "A" "freq-446.00" 2 (by decide) (by decide) (by decide)⟩

/-! ### Disconnect cascade (variant A) -/

theorem hasKeyA_eq_true (m : List (String × List String)) (k : String) :
    hasKeyA m k = true ↔ ∃ p ∈ m, p.1 = k := by
  induction m with
  | nil => simp [hasKeyA]
  | cons q rest ih =>
    by_cases h : q.1 = k <;> simp [hasKeyA, h, ih]

theorem getA_eq_nil_of_hasKeyA_false (m : List (String × List String)) (k : String)
    (h : hasKeyA m k = false) : getA m k = [] := by
  induction m with
  | nil => rfl
  | cons q rest ih =>
    by_cases hq : q.1 = k
    · simp [hasKeyA, hq] at h
    · simp [hasKeyA, hq] at h
      simp [getA, hq, ih h]

theorem hasKeyA_removeAll_false (rooms : List (String × List String)) (sid k : String)
    (h : hasKeyA rooms k = false) : hasKeyA (removeAll rooms sid) k = false := by
  rw [Bool.eq_false_iff]
  intro hc
  obtain ⟨p, hp, hpk⟩ := (hasKeyA_eq_true _ _).mp hc
  obtain ⟨q, hq, hqp⟩ := List.mem_map.mp (List.mem_of_mem_filter hp)
  have : hasKeyA rooms k = true :=
    (hasKeyA_eq_true _ _).mpr ⟨q, hq, by rw [← hpk, ← hqp]⟩
  rw [h] at this
  cases this

theorem removeAll_cons_nil (p : String × List String) (rest : List (String × List String))
    (sid : String) (hv : removeMem p.2 sid = []) :
    removeAll (p :: rest) sid = removeAll rest sid := by
  simp [removeAll, List.filter_cons, hv]

theorem removeAll_cons_ne_nil (p : String × List String) (rest : List (String × List String))
    (sid : String) (hv : removeMem p.2 sid ≠ []) :
    removeAll (p :: rest) sid = (p.1, removeMem p.2 sid) :: removeAll rest sid := by
  simp [removeAll, List.filter_cons, hv]

theorem getA_removeAll (rooms : List (String × List String)) (sid ch : String)
    (hnd : (rooms.map Prod.fst).Nodup) :
    getA (removeAll rooms sid) ch = removeMem (getA rooms ch) sid := by
  induction rooms with
  | nil => rfl
  | cons p rest ih =>
    have hhead : p.1 ∉ rest.map Prod.fst := (List.nodup_cons.mp (by simpa using hnd)).1
    have hnd' : (rest.map Prod.fst).Nodup := (List.nodup_cons.mp (by simpa using hnd)).2
    by_cases h : p.1 = ch
    · have hrest : hasKeyA rest ch = false := by
        rw [Bool.eq_false_iff]
        intro hc
        obtain ⟨q, hq, hqk⟩ := (hasKeyA_eq_true _ _).mp hc
        exact hhead (h ▸ hqk ▸ List.mem_map_of_mem Prod.fst hq)
      have hgcons : getA (p :: rest) ch = p.2 := by simp [getA, h]
      by_cases hv : removeMem p.2 sid = []
      · rw [removeAll_cons_nil p rest sid hv, hgcons, hv]
        exact getA_eq_nil_of_hasKeyA_false _ _ (hasKeyA_removeAll_false rest sid ch hrest)
      · rw [removeAll_cons_ne_nil p rest sid hv, hgcons]
        simp [getA, h]
    · have hgcons : getA (p :: rest) ch = getA rest ch := by simp [getA, h]
      by_cases hv : removeMem p.2 sid = []
      · rw [removeAll_cons_nil p rest sid hv, hgcons]
        exact ih hnd'
      · rw [removeAll_cons_ne_nil p rest sid hv, hgcons]
        simp only [getA, h, if_false, ite_false]
        exact ih hnd'

/-- Claim C8: disconnecting a connection that is a member of exactly `N`
channels produces exactly `N` `userLeft` notices — one per joined channel,
addressed to that channel's remaining members, never to the disconnected
connection — and removes the connection from every channel roster. -/
theorem disconnect_notices (st : ServerA) (sid : String) (N : Nat)
    (hroomsnd : (st.rooms.map Prod.fst).Nodup)
    (hN : (userChans st sid).length = N) :
    (disconnectA st sid).2.length = N ∧
    (disconnectA st sid).2 =
      (userChans st sid).map
        (fun ch => ⟨0, roomMembers (disconnectA st sid).1 ch, .userLeft sid⟩) ∧
    (∀ ch, sid ∉ roomMembers (disconnectA st sid).1 ch) ∧
    (∀ e ∈ (disconnectA st sid).2, sid ∉ e.recipients) := by
  have hget : ∀ ch, roomMembers (disconnectA st sid).1 ch
      = removeMem (roomMembers st ch) sid := by
    intro ch
    show getA (removeAll st.rooms sid) ch = removeMem (getA st.rooms ch) sid
    exact getA_removeAll st.rooms sid ch hroomsnd
  refine ⟨by simp [disconnectA, hN], rfl, ?_, ?_⟩
  · intro ch
    rw [hget ch]
    exact not_mem_removeMem_self _ _
  · intro e he
    obtain ⟨ch, _, rfl⟩ := List.mem_map.mp he
    show sid ∉ getA (removeAll st.rooms sid) ch
    have : getA (removeAll st.rooms sid) ch = removeMem (getA st.rooms ch) sid :=
      getA_removeAll st.rooms sid ch hroomsnd
    rw [this]
    exact not_mem_removeMem_self _ _

/-- State where connection `A` is a member of two channels and `B` of one,
used to witness the disconnect theorem. -/
def wStA2 : ServerA :=
  ⟨[("c", ["A", "B"]), ("d", ["A"])], [("A", ["c", "d"]), ("B", ["c"])]⟩

theorem disconnect_notices_witness :
    (wStA2.rooms.map Prod.fst).Nodup ∧ (userChans wStA2 "A").length = 2 ∧
    ((disconnectA wStA2 "A").2.length = 2 ∧
     (disconnectA wStA2 "A").2 =
       (userChans wStA2 "A").map
         (fun ch => ⟨0, roomMembers (disconnectA wStA2 "A").1 ch, .userLeft "A"⟩) ∧
     (∀ ch, "A" ∉ roomMembers (disconnectA wStA2 "A").1 ch) ∧
     (∀ e ∈ (disconnectA wStA2 "A").2, "A" ∉ e.recipients)) :=
  ⟨by decide, by decide, disconnect_notices wStA2 "A" 2 (by decide) (by decide)⟩

/-! ### Leave semantics (variant A) -/

theorem roomMembers_socketLeave_self (st : ServerA) (sid ch : String) :
    roomMembers (socketLeave st sid ch) ch = removeMem (roomMembers st ch) sid := by
  show getA (socketLeave st sid ch).rooms ch = removeMem (getA st.rooms ch) sid
  by_cases hv : removeMem (getA st.rooms ch) sid = []
  · simp [socketLeave, hv, getA_delA_self]
  · simp [socketLeave, hv, getA_setA_self]

theorem roomMembers_socketLeave_ne (st : ServerA) (sid ch c : String) (hc : c ≠ ch) :
    roomMembers (socketLeave st sid ch) c = roomMembers st c := by
  show getA (socketLeave st sid ch).rooms c = getA st.rooms c
  by_cases hv : removeMem (getA st.rooms ch) sid = []
  · simp [socketLeave, hv, getA_delA_ne _ _ _ hc]
  · simp [socketLeave, hv, getA_setA_ne _ _ _ _ hc]

theorem roomMembers_delChan (st : ServerA) (sid ch c : String) :
    roomMembers (delChan st sid ch) c = roomMembers st c := rfl

theorem userChans_socketLeave (st : ServerA) (sid ch s : String) :
    userChans (socketLeave st sid ch) s = userChans st s := rfl

theorem userChans_delChan_self (st : ServerA) (sid ch : String) :
    userChans (delChan st sid ch) sid = removeMem (userChans st sid) ch := by
  simp [delChan, userChans, getA_setA_self]

theorem userChans_delChan_ne (st : ServerA) (sid ch s : String) (hs : s ≠ sid) :
    userChans (delChan st sid ch) s = userChans st s := by
  simp [delChan, userChans, getA_setA_ne _ _ _ _ hs]

/-- Claim C9 counterexample: in a state where `A` is the sole member of
`freq-446.00` and `B` is not a member of it, `B`'s `leaveChannel` request
still delivers a `userLeft(B)` notice to `A`, contradicting the claimed
no-op for non-members. -/
theorem leave_nonmember_notice_cex :
    "B" ∉ roomMembers wStA "freq-446.00" ∧
    "freq-446.00" ∉ userChans wStA "B" ∧
    "A" ∈ roomMembers wStA "freq-446.00" ∧
    (leaveChannelA wStA "B" "freq-446.00").2 = [⟨0, ["A"], .userLeft "B"⟩] := by
  decide

/-- Claim C9 (amended): `leaveChannel` removes the membership
unconditionally and always emits exactly one `userLeft` notice to the
channel's remaining members — also when the leaver was not a member, in
which case the membership state (rooms and joined sets) is observably
unchanged but the notice still goes to the channel's members; the channel
record is deleted when its member set becomes empty. -/
theorem leave_effects (st : ServerA) (sid ch : String) :
    sid ∉ roomMembers (leaveChannelA st sid ch).1 ch ∧
    ch ∉ userChans (leaveChannelA st sid ch).1 sid ∧
    (leaveChannelA st sid ch).2 =
      [⟨0, roomMembers (leaveChannelA st sid ch).1 ch, .userLeft sid⟩] ∧
    (sid ∉ roomMembers st ch → ch ∉ userChans st sid →
      (∀ c, roomMembers (leaveChannelA st sid ch).1 c = roomMembers st c) ∧
      (∀ s, userChans (leaveChannelA st sid ch).1 s = userChans st s)) ∧
    (removeMem (roomMembers st ch) sid = [] →
      hasKeyA (leaveChannelA st sid ch).1.rooms ch = false) := by
  have hroom : roomMembers (leaveChannelA st sid ch).1 ch
      = removeMem (roomMembers st ch) sid := by
    show roomMembers (delChan (socketLeave st sid ch) sid ch) ch = _
    rw [roomMembers_delChan, roomMembers_socketLeave_self]
  have hchan : userChans (leaveChannelA st sid ch).1 sid
      = removeMem (userChans st sid) ch := by
    show userChans (delChan (socketLeave st sid ch) sid ch) sid = _
    rw [userChans_delChan_self, userChans_socketLeave]
  refine ⟨?_, ?_, rfl, ?_, ?_⟩
  · rw [hroom]; exact not_mem_removeMem_self _ _
  · rw [hchan]; exact not_mem_removeMem_self _ _
  · intro h1 h2
    constructor
    · intro c
      by_cases hc : c = ch
      · rw [hc, hroom, removeMem_of_not_mem h1]
      · show roomMembers (delChan (socketLeave st sid ch) sid ch) c = _
        rw [roomMembers_delChan, roomMembers_socketLeave_ne st sid ch c hc]
    · intro s
      by_cases hs : s = sid
      · rw [hs, hchan, removeMem_of_not_mem h2]
      · show userChans (delChan (socketLeave st sid ch) sid ch) s = _
        rw [userChans_delChan_ne _ _ _ _ hs, userChans_socketLeave]
  · intro hv
    show hasKeyA (delChan (socketLeave st sid ch) sid ch).rooms ch = false
    show hasKeyA (socketLeave st sid ch).rooms ch = false
    have hv' : removeMem (getA st.rooms ch) sid = [] := hv
    simp only [socketLeave]
    rw [if_pos hv']
    exact hasKeyA_delA_self _ _

theorem leave_effects_witness :
    ("B" : String) ∉ roomMembers wStA "freq-446.00" ∧
    ("B" ∉ roomMembers (leaveChannelA wStA "B" "freq-446.00").1 "freq-446.00" ∧
     "freq-446.00" ∉ userChans (leaveChannelA wStA "B" "freq-446.00").1 "B" ∧
     (leaveChannelA wStA "B" "freq-446.00").2 =
       [⟨0, roomMembers (leaveChannelA wStA "B" "freq-446.00").1 "freq-446.00",
         .userLeft "B"⟩] ∧
     ("B" ∉ roomMembers wStA "freq-446.00" → "freq-446.00" ∉ userChans wStA "B" →
       (∀ c, roomMembers (leaveChannelA wStA "B" "freq-446.00").1 c = roomMembers wStA c) ∧
       (∀ s, userChans (leaveChannelA wStA "B" "freq-446.00").1 s = userChans wStA s)) ∧
     (removeMem (roomMembers wStA "freq-446.00") "B" = [] →
       hasKeyA (leaveChannelA wStA "B" "freq-446.00").1.rooms "freq-446.00" = false)) :=
  ⟨by decide, leave_effects wStA "B" "freq-446.00"⟩

/-! ### Media-store key lemmas -/

theorem hasKeyN_eq_true (m : List (String × Nat)) (k : String) :
    hasKeyN m k = true ↔ ∃ p ∈ m, p.1 = k := by
  induction m with
  | nil => simp [hasKeyN]
  | cons q rest ih =>
    by_cases h : q.1 = k <;> simp [hasKeyN, h, ih]

theorem hasKeyN_eq_false (m : List (String × Nat)) (k : String) :
    hasKeyN m k = false ↔ ∀ p ∈ m, p.1 ≠ k := by
  induction m with
  | nil => simp [hasKeyN]
  | cons q rest ih =>
    by_cases h : q.1 = k <;> simp [hasKeyN, h, ih]

theorem key_val_unique (m : List (String × Nat)) (hnd : (m.map Prod.fst).Nodup)
    {k : String} {v w : Nat} (hv : (k, v) ∈ m) (hw : (k, w) ∈ m) : v = w := by
  induction m with
  | nil => cases hv
  | cons q rest ih =>
    have hhead : q.1 ∉ rest.map Prod.fst := (List.nodup_cons.mp (by simpa using hnd)).1
    have hnd' : (rest.map Prod.fst).Nodup := (List.nodup_cons.mp (by simpa using hnd)).2
    rcases List.mem_cons.mp hv with hv0 | hv'
    · rcases List.mem_cons.mp hw with hw0 | hw'
      · rw [← hv0] at hw0
        injection hw0 with h1 h2
        exact h2.symm
      · exfalso
        apply hhead
        have : (k, w).1 ∈ rest.map Prod.fst := List.mem_map_of_mem Prod.fst hw'
        rw [← hv0]
        exact this
    · rcases List.mem_cons.mp hw with hw0 | hw'
      · exfalso
        apply hhead
        have : (k, v).1 ∈ rest.map Prod.fst := List.mem_map_of_mem Prod.fst hv'
        rw [← hw0]
        exact this
      · exact ih hnd' hv' hw'

theorem keysN_nodup_filter (m : List (String × Nat)) (q : String × Nat → Bool)
    (h : (m.map Prod.fst).Nodup) : ((m.filter q).map Prod.fst).Nodup :=
  h.sublist (List.Sublist.map Prod.fst (List.filter_sublist m))

theorem hasKeyN_filter_false (m : List (String × Nat)) (q : String × Nat → Bool)
    (k : String) (h : hasKeyN m k = false) : hasKeyN (m.filter q) k = false := by
  rw [hasKeyN_eq_false] at h ⊢
  exact fun p hp => h p (List.mem_of_mem_filter hp)

theorem hasKeyN_append_false {a b : List (String × Nat)} {k : String}
    (ha : hasKeyN a k = false) (hb : hasKeyN b k = false) :
    hasKeyN (a ++ b) k = false := by
  rw [hasKeyN_eq_false] at ha hb ⊢
  intro p hp
  rcases List.mem_append.mp hp with h | h
  · exact ha p h
  · exact hb p h

/-! ### The eviction sweep, phase by phase -/

theorem cleanupTracked_tracked (now : Nat) (st : MediaState) :
    (cleanupTracked now st).tracked
      = st.tracked.filter (fun p => !isExpired now p.2) := rfl

theorem cleanupTracked_storage (now : Nat) (st : MediaState) :
    (cleanupTracked now st).storage
      = st.storage.filter
          (fun f => !hasKeyN (st.tracked.filter (fun p => isExpired now p.2)) f.1) := rfl

theorem cleanupOldFiles_tracked (now : Nat) (st : MediaState) :
    (cleanupOldFiles now st).tracked
      = (cleanupTracked now st).tracked
        ++ (cleanupTracked now st).storage.filter
             (fun f => !hasKeyN (cleanupTracked now st).tracked f.1
                        && !isExpired now f.2) := rfl

theorem cleanupOldFiles_storage (now : Nat) (st : MediaState) :
    (cleanupOldFiles now st).storage
      = (cleanupTracked now st).storage.filter
          (fun f => hasKeyN (cleanupTracked now st).tracked f.1
                     || !isExpired now f.2) := rfl

/-- Every tracked entry past the TTL is gone from both tracking and storage
after one sweep. -/
theorem sweep_deletes_tracked (now : Nat) (st : MediaState) (p : String × Nat)
    (hnt : (st.tracked.map Prod.fst).Nodup)
    (hp : p ∈ st.tracked) (hexp : isExpired now p.2 = true) :
    hasKeyN (cleanupOldFiles now st).tracked p.1 = false ∧
    hasKeyN (cleanupOldFiles now st).storage p.1 = false := by
  have hexpired : hasKeyN (st.tracked.filter (fun q => isExpired now q.2)) p.1 = true :=
    (hasKeyN_eq_true _ _).mpr ⟨p, List.mem_filter.mpr ⟨hp, hexp⟩, rfl⟩
  have hs1 : hasKeyN (cleanupTracked now st).storage p.1 = false := by
    rw [cleanupTracked_storage, hasKeyN_eq_false]
    intro f hf hfk
    have h2 := (List.mem_filter.mp hf).2
    rw [hfk, hexpired] at h2
    cases h2
  have ht1 : hasKeyN (cleanupTracked now st).tracked p.1 = false := by
    rw [cleanupTracked_tracked, hasKeyN_eq_false]
    intro q hq hqk
    have hq1 := (List.mem_filter.mp hq).1
    have hq2 := (List.mem_filter.mp hq).2
    have hvmem : (q.1, q.2) ∈ st.tracked := hq1
    rw [hqk] at hvmem
    have hpmem : (p.1, p.2) ∈ st.tracked := hp
    have hval : q.2 = p.2 := key_val_unique st.tracked hnt hvmem hpmem
    rw [hval, hexp] at hq2
    cases hq2
  constructor
  · rw [cleanupOldFiles_tracked]
    exact hasKeyN_append_false ht1 (hasKeyN_filter_false _ _ _ hs1)
  · rw [cleanupOldFiles_storage]
    exact hasKeyN_filter_false _ _ _ hs1

/-- An untracked file found in storage is deleted by the sweep when past the
TTL by mtime, and otherwise adopted into tracking and kept. -/
theorem sweep_untracked (now : Nat) (st : MediaState) (q : String × Nat)
    (hns : (st.storage.map Prod.fst).Nodup)
    (hq : q ∈ st.storage) (hun : hasKeyN st.tracked q.1 = false) :
    (isExpired now q.2 = true →
       hasKeyN (cleanupOldFiles now st).storage q.1 = false) ∧
    (isExpired now q.2 = false →
       q ∈ (cleanupOldFiles now st).tracked ∧ q ∈ (cleanupOldFiles now st).storage) := by
  have hexpired_false :
      hasKeyN (st.tracked.filter (fun p => isExpired now p.2)) q.1 = false :=
    hasKeyN_filter_false _ _ _ hun
  have hq1 : q ∈ (cleanupTracked now st).storage := by
    rw [cleanupTracked_storage]
    exact List.mem_filter.mpr ⟨hq, by simp [hexpired_false]⟩
  have ht1false : hasKeyN (cleanupTracked now st).tracked q.1 = false := by
    rw [cleanupTracked_tracked]
    exact hasKeyN_filter_false _ _ _ hun
  constructor
  · intro hexp
    rw [cleanupOldFiles_storage, hasKeyN_eq_false]
    intro f hf hfk
    have hf1 := (List.mem_filter.mp hf).1
    have hcond := (List.mem_filter.mp hf).2
    have hfs : f ∈ st.storage := by
      rw [cleanupTracked_storage] at hf1
      exact List.mem_of_mem_filter hf1
    have hfmem : (f.1, f.2) ∈ st.storage := hfs
    rw [hfk] at hfmem
    have hqmem : (q.1, q.2) ∈ st.storage := hq
    have hfv : f.2 = q.2 := key_val_unique st.storage hns hfmem hqmem
    rw [hfk, ht1false, hfv, hexp] at hcond
    cases hcond
  · intro hfr
    constructor
    · rw [cleanupOldFiles_tracked]
      refine List.mem_append_right _ (List.mem_filter.mpr ⟨hq1, ?_⟩)
      simp [ht1false, hfr]
    · rw [cleanupOldFiles_storage]
      refine List.mem_filter.mpr ⟨hq1, ?_⟩
      simp [hfr]

/-- The invariant carried through successive sweeps: a fresh object stays
tracked with its timestamp and present in storage, and the key sets of the
tracking map and the backing directory stay duplicate-free. -/
def goodPair (f : String) (c : Nat) (st : MediaState) : Prop :=
  (f, c) ∈ st.tracked ∧ (f, c) ∈ st.storage ∧
  (st.tracked.map Prod.fst).Nodup ∧ (st.storage.map Prod.fst).Nodup

theorem goodPair_sweep (f : String) (c now : Nat) (st : MediaState)
    (hg : goodPair f c st) (hfresh : isExpired now c = false) :
    goodPair f c (cleanupOldFiles now st) := by
  obtain ⟨htr, hst, hnt, hns⟩ := hg
  have hexpired_false :
      hasKeyN (st.tracked.filter (fun p => isExpired now p.2)) f = false := by
    rw [hasKeyN_eq_false]
    intro p hp hpk
    have hp1 := (List.mem_filter.mp hp).1
    have hp2 := (List.mem_filter.mp hp).2
    have hpm : (p.1, p.2) ∈ st.tracked := hp1
    rw [hpk] at hpm
    have hval : p.2 = c := key_val_unique st.tracked hnt hpm htr
    rw [hval, hfresh] at hp2
    cases hp2
  have htr1 : (f, c) ∈ (cleanupTracked now st).tracked := by
    rw [cleanupTracked_tracked]
    exact List.mem_filter.mpr ⟨htr, by simp [hfresh]⟩
  have hst1 : (f, c) ∈ (cleanupTracked now st).storage := by
    rw [cleanupTracked_storage]
    exact List.mem_filter.mpr ⟨hst, by simp [hexpired_false]⟩
  have hnt1 : ((cleanupTracked now st).tracked.map Prod.fst).Nodup := by
    rw [cleanupTracked_tracked]
    exact keysN_nodup_filter _ _ hnt
  have hns1 : ((cleanupTracked now st).storage.map Prod.fst).Nodup := by
    rw [cleanupTracked_storage]
    exact keysN_nodup_filter _ _ hns
  have hkey1 : hasKeyN (cleanupTracked now st).tracked f = true :=
    (hasKeyN_eq_true _ _).mpr ⟨(f, c), htr1, rfl⟩
  refine ⟨?_, ?_, ?_, ?_⟩
  · rw [cleanupOldFiles_tracked]
    exact List.mem_append_left _ htr1
  · rw [cleanupOldFiles_storage]
    exact List.mem_filter.mpr ⟨hst1, by simp [hkey1]⟩
  · rw [cleanupOldFiles_tracked, List.map_append, List.nodup_append]
    refine ⟨hnt1, keysN_nodup_filter _ _ hns1, ?_⟩
    intro k hk1 hk2
    obtain ⟨p, hp, hpk⟩ := List.mem_map.mp hk2
    have hcond := (List.mem_filter.mp hp).2
    have hkf : hasKeyN (cleanupTracked now st).tracked p.1 = false := by
      rcases Bool.and_eq_true_iff.mp hcond with ⟨h1, _⟩
      simpa using h1
    obtain ⟨r, hr, hrk⟩ := List.mem_map.mp hk1
    have hkt : hasKeyN (cleanupTracked now st).tracked k = true :=
      (hasKeyN_eq_true _ _).mpr ⟨r, hr, hrk⟩
    rw [← hpk, hkf] at hkt
    cases hkt
  · rw [cleanupOldFiles_storage]
    exact keysN_nodup_filter _ _ hns1

/-- Storage never regrows: a deleted object stays deleted under sweeps. -/
theorem sweep_dead (now : Nat) (st : MediaState) (f : String)
    (hd : hasKeyN st.storage f = false) :
    hasKeyN (cleanupOldFiles now st).storage f = false := by
  rw [cleanupOldFiles_storage]
  apply hasKeyN_filter_false
  rw [cleanupTracked_storage]
  exact hasKeyN_filter_false _ _ _ hd

theorem runSweeps_cons (t : Nat) (rest : List Nat) (st : MediaState) :
    runSweeps (t :: rest) st = runSweeps rest (cleanupOldFiles t st) := rfl

theorem runSweeps_good (f : String) (c : Nat) (times : List Nat) (st : MediaState)
    (hg : goodPair f c st)
    (hall : ∀ s ∈ times, isExpired s c = false) :
    goodPair f c (runSweeps times st) := by
  induction times generalizing st with
  | nil => exact hg
  | cons u rest ih =>
    rw [runSweeps_cons]
    exact ih (cleanupOldFiles u st)
      (goodPair_sweep f c u st hg (hall u (List.mem_cons_self _ _)))
      (fun s hs => hall s (List.mem_cons_of_mem _ hs))

theorem runSweeps_dead (f : String) (times : List Nat) (st : MediaState)
    (hd : hasKeyN st.storage f = false) :
    hasKeyN (runSweeps times st).storage f = false := by
  induction times generalizing st with
  | nil => exact hd
  | cons u rest ih =>
    rw [runSweeps_cons]
    exact ih _ (sweep_dead u st f hd)

theorem runSweeps_expires (f : String) (c : Nat) (times : List Nat) (st : MediaState)
    (hg : goodPair f c st)
    (hs : ∃ s ∈ times, isExpired s c = true) :
    hasKeyN (runSweeps times st).storage f = false := by
  induction times generalizing st with
  | nil =>
    obtain ⟨s, hs1, _⟩ := hs
    cases hs1
  | cons u rest ih =>
    rw [runSweeps_cons]
    by_cases hexp : isExpired u c = true
    · exact runSweeps_dead f rest _
        (sweep_deletes_tracked u st (f, c) hg.2.2.1 hg.1 hexp).2
    · have hfresh : isExpired u c = false := Bool.eq_false_iff.mpr hexp
      obtain ⟨s, hs1, hs2⟩ := hs
      rcases List.mem_cons.mp hs1 with rfl | hs1'
      · exact absurd hs2 hexp
      · exact ih _ (goodPair_sweep f c u st hg hfresh) ⟨s, hs1', hs2⟩

theorem sweepTimes_le (t0 I t : Nat) :
    ∀ s ∈ sweepTimes t0 I t, s ≤ t0 + (t - t0) := by
  intro s hs
  simp only [sweepTimes, List.mem_map, List.mem_range] at hs
  obtain ⟨k, hk, rfl⟩ := hs
  have h1 : k ≤ (t - t0) / I := Nat.lt_succ_iff.mp hk
  have h2 : k * I ≤ (t - t0) / I * I := Nat.mul_le_mul_right I h1
  have h3 : (t - t0) / I * I ≤ t - t0 := Nat.div_mul_le_self _ _
  omega

theorem sweepTimes_hit (t0 I m t : Nat) (hI : 0 < I) (h0 : t0 ≤ m) (hmt : m + I ≤ t) :
    ∃ s ∈ sweepTimes t0 I t, m < s ∧ s ≤ m + I := by
  have hd1 : (m - t0) / I * I ≤ m - t0 := Nat.div_mul_le_self _ _
  have hmod : I * ((m - t0) / I) + (m - t0) % I = m - t0 := Nat.div_add_mod (m - t0) I
  have hr : (m - t0) % I < I := Nat.mod_lt _ hI
  have hqi : I * ((m - t0) / I) = (m - t0) / I * I := Nat.mul_comm I _
  have hsm : ((m - t0) / I + 1) * I = (m - t0) / I * I + I := Nat.succ_mul _ I
  refine ⟨t0 + ((m - t0) / I + 1) * I, ?_, ?_, ?_⟩
  · simp only [sweepTimes, List.mem_map, List.mem_range]
    refine ⟨(m - t0) / I + 1, ?_, rfl⟩
    rw [Nat.lt_succ_iff, Nat.le_div_iff_mul_le hI]
    omega
  · omega
  · omega

theorem isExpired_eq_true_iff (now ts : Nat) :
    isExpired now ts = true ↔ ts + FILE_MAX_AGE_MS < now := by
  simp [isExpired]

theorem isExpired_eq_false_iff (now ts : Nat) :
    isExpired now ts = false ↔ ¬(ts + FILE_MAX_AGE_MS < now) := by
  simp [isExpired]

/-- Claim C7: one run of the eviction sweep deletes every tracked object
whose age exceeds the TTL and drops it from tracking; every untracked object
found in storage is deleted when its mtime age exceeds the TTL and adopted
into tracking (and kept) otherwise; and, under the periodic sweep schedule,
an object uploaded at time `c` (tracked and stored, with duplicate-free
names) is still retrievable at any observation time `tR < c + TTL` and no
longer retrievable at any observation time `tD > c + TTL + sweep interval`. -/
theorem cleanup_ttl_spec (now t0 c tR tD : Nat) (fname : String) (st : MediaState)
    (hnt : (st.tracked.map Prod.fst).Nodup)
    (hns : (st.storage.map Prod.fst).Nodup)
    (htr : (fname, c) ∈ st.tracked)
    (hst : (fname, c) ∈ st.storage)
    (ht0 : t0 ≤ c) :
    (∀ p ∈ st.tracked, p.2 + FILE_MAX_AGE_MS < now →
       hasKeyN (cleanupOldFiles now st).tracked p.1 = false ∧
       hasKeyN (cleanupOldFiles now st).storage p.1 = false) ∧
    (∀ q ∈ st.storage, hasKeyN st.tracked q.1 = false →
       (q.2 + FILE_MAX_AGE_MS < now →
          hasKeyN (cleanupOldFiles now st).storage q.1 = false) ∧
       (¬(q.2 + FILE_MAX_AGE_MS < now) →
          q ∈ (cleanupOldFiles now st).tracked ∧
          q ∈ (cleanupOldFiles now st).storage)) ∧
    (tR < c + FILE_MAX_AGE_MS →
       retrievable (runSweeps (sweepTimes t0 CLEANUP_INTERVAL_MS tR) st) fname = true) ∧
    (c + FILE_MAX_AGE_MS + CLEANUP_INTERVAL_MS < tD →
       retrievable (runSweeps (sweepTimes t0 CLEANUP_INTERVAL_MS tD) st) fname = false) := by
  have hg : goodPair fname c st := ⟨htr, hst, hnt, hns⟩
  refine ⟨?_, ?_, ?_, ?_⟩
  · intro p hp hage
    exact sweep_deletes_tracked now st p hnt hp ((isExpired_eq_true_iff _ _).mpr hage)
  · intro q hq hun
    have h := sweep_untracked now st q hns hq hun
    refine ⟨fun hage => h.1 ((isExpired_eq_true_iff _ _).mpr hage),
            fun hage => h.2 ((isExpired_eq_false_iff _ _).mpr hage)⟩
  · intro hlive
    have hall : ∀ s ∈ sweepTimes t0 CLEANUP_INTERVAL_MS tR, isExpired s c = false := by
      intro s hsmem
      have hle := sweepTimes_le t0 CLEANUP_INTERVAL_MS tR s hsmem
      rw [isExpired_eq_false_iff]
      omega
    have hfinal := runSweeps_good fname c _ st hg hall
    exact (hasKeyN_eq_true _ _).mpr ⟨(fname, c), hfinal.2.1, rfl⟩
  · intro hdead
    have hI : 0 < CLEANUP_INTERVAL_MS := by decide
    have h0 : t0 ≤ c + FILE_MAX_AGE_MS := by omega
    have hmt : c + FILE_MAX_AGE_MS + CLEANUP_INTERVAL_MS ≤ tD := Nat.le_of_lt hdead
    obtain ⟨s, hsmem, hs1, _⟩ :=
      sweepTimes_hit t0 CLEANUP_INTERVAL_MS (c + FILE_MAX_AGE_MS) tD hI h0 hmt
    exact runSweeps_expires fname c _ st hg
      ⟨s, hsmem, (isExpired_eq_true_iff _ _).mpr hs1⟩

/-- Starting media state for the C7 witness: one object `f` created at
time 0, tracked and stored. -/
def wMedia : MediaState := ⟨[("f", 0)], [("f", 0)]⟩

theorem cleanup_ttl_spec_witness :
    (wMedia.tracked.map Prod.fst).Nodup ∧
    (wMedia.storage.map Prod.fst).Nodup ∧
    ("f", 0) ∈ wMedia.tracked ∧ ("f", 0) ∈ wMedia.storage ∧ 0 ≤ 0 ∧
    ((∀ p ∈ wMedia.tracked, p.2 + FILE_MAX_AGE_MS < 250000 →
        hasKeyN (cleanupOldFiles 250000 wMedia).tracked p.1 = false ∧
        hasKeyN (cleanupOldFiles 250000 wMedia).storage p.1 = false) ∧
     (∀ q ∈ wMedia.storage, hasKeyN wMedia.tracked q.1 = false →
        (q.2 + FILE_MAX_AGE_MS < 250000 →
           hasKeyN (cleanupOldFiles 250000 wMedia).storage q.1 = false) ∧
        (¬(q.2 + FILE_MAX_AGE_MS < 250000) →
           q ∈ (cleanupOldFiles 250000 wMedia).tracked ∧
           q ∈ (cleanupOldFiles 250000 wMedia).storage)) ∧
     (100000 < 0 + FILE_MAX_AGE_MS →
        retrievable (runSweeps (sweepTimes 0 CLEANUP_INTERVAL_MS 100000) wMedia) "f" = true) ∧
     (0 + FILE_MAX_AGE_MS + CLEANUP_INTERVAL_MS < 300001 →
        retrievable (runSweeps (sweepTimes 0 CLEANUP_INTERVAL_MS 300001) wMedia) "f" = false)) :=
  ⟨by decide, by decide, by decide, by decide, by decide,
   cleanup_ttl_spec 250000 0 0 100000 300001 "f" wMedia
     (by decide) (by decide) (by decide) (by decide) (by decide)⟩

end WalkieTalkie
